import Mathlib

/-!
# Verification of the tactical combat engine

Shallow embedding of the combat core of the `pygame_tactics_test` repository:
grid and tiles (`src/combat/grid.py`), line of sight (`src/combat/line_of_sight.py`),
pathfinding (`src/combat/pathfinding.py`), combat deck (`src/entities/combat_deck.py`),
units (`src/entities/unit.py`), combat resolution (`src/combat/combat_resolver.py`)
and the enemy AI movement truncation (`src/combat/enemy_ai.py`).

Python integers are modelled as `ℤ` (or `ℕ` where the source value is a count),
floating point path costs of the form `a + b*sqrt 2` are modelled exactly as
pairs `(a, b) : ℕ × ℕ` compared through their real value, and the injected
randomness (dice roll, shuffles) is passed explicitly as parameters.
-/

namespace Tactics

/-! ## Configuration constants (src/config.py, lines 88-93) -/

def DISTANCE_PENALTY_PER_TILE : ℤ := 10

def HALF_COVER_BONUS : ℤ := 20

def FULL_COVER_BONUS : ℤ := 40

def MIN_HIT_CHANCE : ℤ := 5

def MAX_HIT_CHANCE : ℤ := 95

def GRID_SIZE : ℕ := 10

/-! ## Terrain (src/combat/grid.py, Tile) -/

/-- The three terrain kinds a `Tile` can carry (`terrain_type` strings
"empty" / "half_cover" / "full_cover" in the source). -/
inductive Terrain where
  | empty
  | half_cover
  | full_cover
deriving DecidableEq, Repr

/-- `Tile.blocks_sight`: set to true only for full cover (grid.py lines 39-53). -/
def Terrain.blocks_sight : Terrain → Bool
  | .full_cover => true
  | _ => false

/-- `Tile.blocks_movement`: false for every terrain kind (grid.py lines 39-53,
cover never blocks movement in this design). -/
def Terrain.blocks_movement : Terrain → Bool
  | _ => false

/-! ## Units (src/entities/unit.py)

A `Unit` is modelled by the fields that the combat core reads and writes.
String identity (name, symbol, team) plays no role in the claims. -/

structure Unit where
  position : Option (ℤ × ℤ) := none
  base_accuracy : ℤ := 0
  accuracy_modifier : ℤ := 0
  base_will : ℤ := 0
  will_modifier : ℤ := 0
  current_health : ℤ := 0
  current_sanity : ℤ := 0
  is_incapacitated : Bool := false
deriving DecidableEq, Repr

/-- `Unit.accuracy` property: `max(5, min(95, base_accuracy + accuracy_modifier))`
(unit.py line 132). -/
def Unit.accuracy (u : Unit) : ℤ :=
  max 5 (min 95 (u.base_accuracy + u.accuracy_modifier))

/-- `Unit.will` property: `max(0, base_will + will_modifier)` (unit.py line 142). -/
def Unit.will (u : Unit) : ℤ :=
  max 0 (u.base_will + u.will_modifier)

/-- `Unit.take_damage` (unit.py lines 154-171): the returned value is
`min(amount, current_health)`; the health is decremented and floored at 0,
setting `is_incapacitated` when it reaches 0.  Returns the damage dealt
together with the updated unit. -/
def Unit.take_damage (u : Unit) (amount : ℤ) : ℤ × Unit :=
  let actual_damage := min amount u.current_health
  let h := u.current_health - actual_damage
  if h ≤ 0 then
    (actual_damage, { u with current_health := 0, is_incapacitated := true })
  else
    (actual_damage, { u with current_health := h })

/-- `Unit.take_sanity_damage` (unit.py lines 173-193): the will stat reduces
the damage (`max(0, amount - will)`); the sanity is decremented and floored at
0, setting `is_incapacitated` when it reaches 0. -/
def Unit.take_sanity_damage (u : Unit) (amount : ℤ) : ℤ × Unit :=
  let actual_damage := max 0 (amount - u.will)
  let s := u.current_sanity - actual_damage
  if s ≤ 0 then
    (actual_damage, { u with current_sanity := 0, is_incapacitated := true })
  else
    (actual_damage, { u with current_sanity := s })

/-! ## Hit chance (src/combat/combat_resolver.py, lines 31-75) -/

/-- Python `int(x)` truncates toward zero. -/
def pyInt (q : ℚ) : ℤ :=
  if 0 ≤ q then ⌊q⌋ else ⌈q⌉

/-- Cover penalty selection of `calculate_hit_chance` (combat_resolver.py
lines 62-67): 0 for empty, `HALF_COVER_BONUS` for half cover,
`FULL_COVER_BONUS` for full cover. -/
def cover_penalty : Terrain → ℤ
  | .empty => 0
  | .half_cover => HALF_COVER_BONUS
  | .full_cover => FULL_COVER_BONUS

/-- `calculate_hit_chance` (combat_resolver.py lines 31-75).  The attacker is
represented by its effective `accuracy` value; the distance is the float
argument, modelled as a rational. -/
def calculate_hit_chance (accuracy : ℤ) (distance : ℚ) (cover : Terrain) : ℤ :=
  let base_chance := accuracy
  let distance_penalty := pyInt distance * DISTANCE_PENALTY_PER_TILE
  let final_chance := base_chance - distance_penalty - cover_penalty cover
  max MIN_HIT_CHANCE (min MAX_HIT_CHANCE final_chance)

/-- Restatement of the specification formula for the hit chance:
`clamp(5, 95, accuracy - 10*floor(distance) - cover_penalty)` with cover
penalty 0/20/40 for empty/half/full cover (spec section 4.5 step 5). -/
def spec_hit_chance (accuracy : ℤ) (distance : ℚ) (cover : Terrain) : ℤ :=
  let p : ℤ := match cover with
    | .empty => 0
    | .half_cover => 20
    | .full_cover => 40
  max 5 (min 95 (accuracy - 10 * ⌊distance⌋ - p))

theorem pyInt_eq_floor_of_nonneg {q : ℚ} (h : 0 ≤ q) : pyInt q = ⌊q⌋ := by
  simp [pyInt, h]

/-- C1: for every accuracy, nonnegative distance and cover kind,
`calculate_hit_chance` equals the specification clamp formula
`clamp(5, 95, accuracy - 10*floor(distance) - cover_penalty)` with penalties
0/20/40 for empty/half/full cover, and the result always lies in `[5, 95]`. -/
theorem calculate_hit_chance_correct (accuracy : ℤ) (distance : ℚ) (cover : Terrain)
    (hd : 0 ≤ distance) :
    calculate_hit_chance accuracy distance cover = spec_hit_chance accuracy distance cover ∧
    5 ≤ calculate_hit_chance accuracy distance cover ∧
    calculate_hit_chance accuracy distance cover ≤ 95 := by
  unfold calculate_hit_chance spec_hit_chance
  rw [pyInt_eq_floor_of_nonneg hd]
  refine ⟨?_, ?_, ?_⟩
  · cases cover <;> simp [cover_penalty, DISTANCE_PENALTY_PER_TILE, HALF_COVER_BONUS,
      FULL_COVER_BONUS, MIN_HIT_CHANCE, MAX_HIT_CHANCE, mul_comm]
  · simp [MIN_HIT_CHANCE]
  · simp [MIN_HIT_CHANCE, MAX_HIT_CHANCE]

/-- Witness for C1: the spec scenario accuracy 75, distance 3, full cover gives
hit chance 5 (the clamp floor), and the formula agreement holds there. -/
theorem calculate_hit_chance_correct_witness :
    (0 : ℚ) ≤ 3 ∧
    calculate_hit_chance 75 3 .full_cover = spec_hit_chance 75 3 .full_cover ∧
    5 ≤ calculate_hit_chance 75 3 .full_cover ∧
    calculate_hit_chance 75 3 .full_cover ≤ 95 :=
  ⟨by norm_num, calculate_hit_chance_correct 75 3 .full_cover (by norm_num)⟩

/-- C8: `take_damage` deals exactly `min(amount, current_health)`; the health
after the call is `current_health - min(amount, current_health)` (never
negative, never past zero), and the spec scenario (3 health, 5 damage) yields
damage 3, health 0 and incapacitation. -/
theorem take_damage_correct :
    (∀ (u : Unit) (amount : ℤ),
      (u.take_damage amount).1 = min amount u.current_health ∧
      (u.take_damage amount).2.current_health =
        u.current_health - min amount u.current_health ∧
      0 ≤ (u.take_damage amount).2.current_health) ∧
    (({ current_health := 3 : Unit }).take_damage 5).1 = 3 ∧
    (({ current_health := 3 : Unit }).take_damage 5).2.current_health = 0 ∧
    (({ current_health := 3 : Unit }).take_damage 5).2.is_incapacitated = true := by
  refine ⟨fun u amount => ?_, by decide, by decide, by decide⟩
  unfold Unit.take_damage
  dsimp only
  split <;> simp_all

/-- C10: `take_sanity_damage` returns `max(0, amount - will)` with no clamp to
the remaining sanity, so the reported damage can exceed the sanity actually
lost (concrete instance: 2 sanity, will 1, 5 damage reports 4 but removes 2);
the sanity itself is floored at 0 and incapacitation is set when it reaches 0. -/
theorem take_sanity_damage_correct :
    (∀ (u : Unit) (amount : ℤ),
      (u.take_sanity_damage amount).1 = max 0 (amount - u.will) ∧
      0 ≤ (u.take_sanity_damage amount).2.current_sanity ∧
      ((u.take_sanity_damage amount).2.current_sanity = 0 →
        (u.take_sanity_damage amount).2.is_incapacitated = true)) ∧
    (({ current_sanity := 2, base_will := 1 : Unit }).take_sanity_damage 5).1 = 4 ∧
    (({ current_sanity := 2, base_will := 1 : Unit }).take_sanity_damage 5).2.current_sanity
      = 0 ∧
    (4 : ℤ) >
      ({ current_sanity := 2, base_will := 1 : Unit }).current_sanity -
      (({ current_sanity := 2, base_will := 1 : Unit }).take_sanity_damage 5).2.current_sanity ∧
    (({ current_sanity := 2, base_will := 1 : Unit }).take_sanity_damage 5).2.is_incapacitated
      = true := by
  refine ⟨fun u amount => ?_, by decide, by decide, by decide, by decide⟩
  unfold Unit.take_sanity_damage
  dsimp only
  constructor
  · split <;> simp_all
  constructor
  · split <;> (simp_all; try omega)
  · intro h
    split at h <;> simp_all

/-! ## Combat deck (src/entities/combat_deck.py)

The shuffle (`random.shuffle`) is the only randomness; every deck operation is
parametrised by the permutation `σ` that the shuffle applies to the pile. -/

/-- `CardType` (combat_deck.py lines 20-35). -/
inductive CardType where
  | NULL
  | MULTIPLY
  | PLUS
  | MINUS
  | ZERO
deriving DecidableEq, Repr

/-- Display name of a card (combat_deck.py `_generate_name`, lines 58-70);
the name is what `remove_card` matches on and what attack results report. -/
def CardType.generate_name : CardType → ℤ → String
  | .NULL, _ => "NULL"
  | .MULTIPLY, _ => "x2"
  | .ZERO, _ => "+0"
  | .PLUS, m => "+" ++ toString m
  | .MINUS, m => toString m

/-- `Card` (combat_deck.py lines 38-119): a kind, an integer modifier and a
display name (defaulted from the kind and modifier at construction). -/
structure Card where
  card_type : CardType
  modifier : ℤ
  name : String
deriving DecidableEq, Repr

/-- Card construction with the generated default name (combat_deck.py line 56). -/
def Card.mkCard (t : CardType) (m : ℤ) : Card :=
  ⟨t, m, t.generate_name m⟩

/-- `Card.is_null` (combat_deck.py line 72). -/
def Card.is_null (c : Card) : Bool := c.card_type = CardType.NULL

/-- `Card.is_multiply` (combat_deck.py line 76). -/
def Card.is_multiply (c : Card) : Bool := c.card_type = CardType.MULTIPLY

/-- `Card.apply_to_damage` (combat_deck.py lines 80-111): NULL gives 0
unconditionally, MULTIPLY doubles, the rest add the modifier floored at 0. -/
def Card.apply_to_damage (c : Card) (base_damage : ℤ) : ℤ :=
  match c.card_type with
  | .NULL => 0
  | .MULTIPLY => base_damage * 2
  | _ => max 0 (base_damage + c.modifier)

/-- `CombatDeck` (combat_deck.py lines 122-155): two ordered piles plus the
lifetime statistics counters. -/
structure CombatDeck where
  draw_pile : List Card := []
  discard_pile : List Card := []
  total_cards_drawn : ℕ := 0
  nulls_drawn : ℕ := 0
  crits_drawn : ℕ := 0
deriving DecidableEq, Repr

/-- Total number of cards, `CombatDeck.size` (combat_deck.py line 270). -/
def CombatDeck.size (d : CombatDeck) : ℕ :=
  d.draw_pile.length + d.discard_pile.length

/-- `CombatDeck.reshuffle_discard` (combat_deck.py lines 206-216): the draw
pile is REPLACED by the shuffled discard pile and the discard pile emptied.
`σ` is the permutation applied by `random.shuffle`. -/
def CombatDeck.reshuffle_discard (σ : List Card → List Card) (d : CombatDeck) : CombatDeck :=
  { d with draw_pile := σ d.discard_pile, discard_pile := [] }

/-- Pop the front of the draw pile onto the discard pile and update the
statistics (combat_deck.py lines 243-254).  An empty draw pile here would
raise `IndexError` in the source; it is unreachable from `draw`. -/
def CombatDeck.pop_front (d : CombatDeck) : Option Card × CombatDeck :=
  match d.draw_pile with
  | [] => (none, d)
  | card :: rest =>
      (some card,
        { d with
          draw_pile := rest
          discard_pile := d.discard_pile ++ [card]
          total_cards_drawn := d.total_cards_drawn + 1
          nulls_drawn := d.nulls_drawn + (if card.is_null then 1 else 0)
          crits_drawn := d.crits_drawn + (if card.is_multiply then 1 else 0) })

/-- `CombatDeck.draw` (combat_deck.py lines 218-254): reshuffle the discard
pile into the draw pile when the draw pile is empty, return `none` when both
piles are empty, otherwise move the front card of the draw pile to the discard
pile. -/
def CombatDeck.draw (σ : List Card → List Card) (d : CombatDeck) : Option Card × CombatDeck :=
  if d.draw_pile = [] then
    if d.discard_pile = [] then (none, d)
    else (d.reshuffle_discard σ).pop_front
  else d.pop_front

/-- `CombatDeck.reset` (combat_deck.py lines 298-307): extend the draw pile
with the discard pile, empty the discard pile and shuffle; the statistics are
untouched. -/
def CombatDeck.reset (σ : List Card → List Card) (d : CombatDeck) : CombatDeck :=
  { d with draw_pile := σ (d.draw_pile ++ d.discard_pile), discard_pile := [] }

/-- The deck operations a caller can run on a deck (claim C3). -/
inductive DeckOp where
  | draw
  | reshuffle
  | reset
deriving DecidableEq, Repr

/-- Run one deck operation, discarding any drawn card. -/
def DeckOp.apply (σ : List Card → List Card) : DeckOp → CombatDeck → CombatDeck
  | .draw, d => (d.draw σ).2
  | .reshuffle, d => d.reshuffle_discard σ
  | .reset, d => d.reset σ

/-- Run a sequence of deck operations from the left. -/
def runDeckOps (σ : List Card → List Card) (ops : List DeckOp) (d : CombatDeck) : CombatDeck :=
  ops.foldl (fun acc op => op.apply σ acc) d

/-- A sequence of operations is safe when every `reshuffle_discard` in it is
executed in a state whose draw pile is empty — the only way the source ever
calls it (from `CombatDeck.draw`). -/
def SafeOps (σ : List Card → List Card) : List DeckOp → CombatDeck → Prop
  | [], _ => True
  | op :: ops, d => (op = .reshuffle → d.draw_pile = []) ∧ SafeOps σ ops (op.apply σ d)

theorem length_σ_append {σ : List Card → List Card}
    (hσ : ∀ l, (σ l).length = l.length) (l : List Card) :
    (σ l).length = l.length := hσ l

theorem pop_front_size (d : CombatDeck) : (d.pop_front).2.size = d.size := by
  unfold CombatDeck.pop_front
  split <;> (simp_all [CombatDeck.size]; try omega)

theorem draw_size {σ : List Card → List Card}
    (hσ : ∀ l, (σ l).length = l.length) (d : CombatDeck) :
    ((d.draw σ)).2.size = d.size := by
  unfold CombatDeck.draw
  split
  · split
    · rfl
    · rw [pop_front_size]
      simp_all [CombatDeck.reshuffle_discard, CombatDeck.size]
  · exact pop_front_size d

theorem reset_size {σ : List Card → List Card}
    (hσ : ∀ l, (σ l).length = l.length) (d : CombatDeck) :
    (d.reset σ).size = d.size := by
  simp [CombatDeck.reset, CombatDeck.size, hσ]

theorem reshuffle_size_of_empty {σ : List Card → List Card}
    (hσ : ∀ l, (σ l).length = l.length) (d : CombatDeck)
    (h : d.draw_pile = []) :
    (d.reshuffle_discard σ).size = d.size := by
  simp [CombatDeck.reshuffle_discard, CombatDeck.size, hσ, h]

/-- C3 (amended): when the shuffle is a length-preserving permutation, the
total card count is invariant under every safe sequence of `draw`,
`reshuffle_discard` and `reset` calls (safe: `reshuffle_discard` only runs
while the draw pile is empty, its only call site in the source); `draw`
pops the front of the draw pile onto the discard pile, reshuffling the
discard pile into the draw pile first when the draw pile is empty, and
returns `none` exactly when both piles are empty. -/
theorem deck_conservation {σ : List Card → List Card}
    (hσ : ∀ l, (σ l).length = l.length) :
    (∀ (ops : List DeckOp) (d : CombatDeck), SafeOps σ ops d →
      (runDeckOps σ ops d).size = d.size) ∧
    (∀ (d : CombatDeck) (c : Card) (rest : List Card), d.draw_pile = c :: rest →
      (d.draw σ).1 = some c ∧
      (d.draw σ).2.draw_pile = rest ∧
      (d.draw σ).2.discard_pile = d.discard_pile ++ [c]) ∧
    (∀ d : CombatDeck, d.draw_pile = [] → d.discard_pile ≠ [] →
      (d.draw σ).2.draw_pile = (σ d.discard_pile).tail ∧
      (d.draw σ).1 = (σ d.discard_pile).head? ∧
      (d.draw σ).2.discard_pile = (σ d.discard_pile).take 1) ∧
    (∀ d : CombatDeck, (d.draw σ).1 = none ↔ d.draw_pile = [] ∧ d.discard_pile = []) := by
  refine ⟨?_, ?_, ?_, ?_⟩
  · intro ops
    induction ops with
    | nil => intro d _; rfl
    | cons op ops ih =>
      intro d hsafe
      obtain ⟨h1, h2⟩ := hsafe
      have step : (op.apply σ d).size = d.size := by
        cases op with
        | draw => exact draw_size hσ d
        | reshuffle => exact reshuffle_size_of_empty hσ d (h1 rfl)
        | reset => exact reset_size hσ d
      calc (runDeckOps σ (op :: ops) d).size
          = (runDeckOps σ ops (op.apply σ d)).size := rfl
        _ = (op.apply σ d).size := ih _ h2
        _ = d.size := step
  · intro d c rest h
    have hne : d.draw_pile ≠ [] := by simp [h]
    simp [CombatDeck.draw, hne, CombatDeck.pop_front, h]
  · intro d h1 h2
    have hlen : (σ d.discard_pile).length = d.discard_pile.length := hσ _
    have hne : σ d.discard_pile ≠ [] := by
      intro hc
      apply h2
      have := hσ d.discard_pile
      rw [hc] at this
      simpa using this.symm
    obtain ⟨c, rest, hcr⟩ := List.exists_cons_of_ne_nil hne
    simp [CombatDeck.draw, h1, h2, CombatDeck.reshuffle_discard, CombatDeck.pop_front, hcr]
  · intro d
    constructor
    · intro h
      cases hdp : d.draw_pile with
      | cons c cs =>
        exfalso
        have hne : d.draw_pile ≠ [] := by simp [hdp]
        simp [CombatDeck.draw, hne, CombatDeck.pop_front, hdp] at h
      | nil =>
        cases hdc : d.discard_pile with
        | nil => exact ⟨rfl, rfl⟩
        | cons c cs =>
          exfalso
          have hne : σ d.discard_pile ≠ [] := by
            intro hnil
            have := hσ d.discard_pile
            rw [hnil, hdc] at this
            simp at this
          obtain ⟨c2, rest2, hcr⟩ := List.exists_cons_of_ne_nil hne
          have hdcne : d.discard_pile ≠ [] := by simp [hdc]
          simp [CombatDeck.draw, hdp, hdcne, CombatDeck.reshuffle_discard,
            CombatDeck.pop_front, hcr] at h
    · intro ⟨h1, h2⟩
      simp [CombatDeck.draw, h1, h2]

/-- Witness for C3: with the identity permutation, a concrete two-card deck
keeps its size across a draw-draw-reshuffle-draw-reset sequence (the
reshuffle happening on an empty draw pile), and the concrete draw moves the
front card to the discard pile. -/
theorem deck_conservation_witness :
    (∀ l : List Card, (id l).length = l.length) ∧
    (runDeckOps id [.draw, .draw, .reshuffle, .draw, .reset]
      { draw_pile := [Card.mkCard .ZERO 0, Card.mkCard .PLUS 1] }).size = 2 := by
  have h := deck_conservation (σ := id) (fun l => rfl)
  refine ⟨fun l => rfl, ?_⟩
  have hs := h.1 [.draw, .draw, .reshuffle, .draw, .reset]
    { draw_pile := [Card.mkCard .ZERO 0, Card.mkCard .PLUS 1] } (by
      refine ⟨?_, ?_, ?_, ?_, ?_, trivial⟩ <;> (intro hx; revert hx; decide))
  rw [hs]
  rfl

/-- Counterexample for C3: a bare `reshuffle_discard` call on a deck whose
draw pile is non-empty throws the draw pile away: a one-card deck drops to
size 0, so the total card count is not invariant under arbitrary sequences of
`draw`, `reshuffle_discard` and `reset` calls. -/
theorem deck_conservation_counterexample :
    ({ draw_pile := [Card.mkCard .ZERO 0] : CombatDeck }).size = 1 ∧
    (({ draw_pile := [Card.mkCard .ZERO 0] : CombatDeck }).reshuffle_discard id).size = 0 := by
  constructor <;> rfl

/-! ## Grid and tiles (src/combat/grid.py) -/

/-- A tile is its terrain plus its occupancy flag (for sight purposes only the
occupancy flag matters; the occupant identity is modelled separately for the
occupancy-invariant claim). -/
structure Tile where
  terrain : Terrain
  occupied : Bool
deriving DecidableEq, Repr

/-- The battlefield grid: a size and, per coordinate, a tile.  The `tiles`
function is total; `get_tile` restricts it to the bounds like the source. -/
structure Grid where
  size : ℕ
  tiles : ℤ → ℤ → Tile

/-- `Grid.is_valid_position` (grid.py lines 116-127). -/
def Grid.is_valid_position (g : Grid) (x y : ℤ) : Bool :=
  0 ≤ x && x < g.size && 0 ≤ y && y < g.size

/-- `Grid.get_tile` (grid.py lines 101-114): `none` outside the bounds. -/
def Grid.get_tile (g : Grid) (x y : ℤ) : Option Tile :=
  if g.is_valid_position x y then some (g.tiles x y) else none

/-! ## Bresenham rasterization and line of sight (src/combat/line_of_sight.py) -/

/-- One iteration body of the `while True` loop of `bresenham_line`
(line_of_sight.py lines 59-78): from the current `(x, y, err)`, compute the
next one.  The error comparisons use the error value from before the
iteration (`e2 = 2*err` is computed once). -/
def bresStep (sx sy dx dy : ℤ) (x y err : ℤ) : ℤ × ℤ × ℤ :=
  let e2 := 2 * err
  let p1 := if e2 > -dy then (err - dy, x + sx) else (err, x)
  let p2 := if e2 < dx then (p1.1 + dx, y + sy) else (p1.1, y)
  (p1.2, p2.2, p2.1)

/-- The `while True` loop of `bresenham_line`, with explicit fuel.  Each
iteration appends the current point, stops on reaching the endpoint and
otherwise advances by `bresStep`.  The loop terminates within
`dx + dy + 1` iterations (each iteration moves at least one axis one step
toward the endpoint), which is the fuel supplied by `bresenham_line`. -/
def bresLoop (x1 y1 sx sy dx dy : ℤ) : ℕ → ℤ → ℤ → ℤ → List (ℤ × ℤ)
  | 0, _, _, _ => []
  | fuel + 1, x, y, err =>
      (x, y) ::
        (if x = x1 ∧ y = y1 then []
         else
           bresLoop x1 y1 sx sy dx dy fuel (bresStep sx sy dx dy x y err).1
             (bresStep sx sy dx dy x y err).2.1 (bresStep sx sy dx dy x y err).2.2)

/-- `bresenham_line` (line_of_sight.py lines 19-80): all grid cells along the
line from `start` to `finish`, inclusive of both endpoints, using the classic
integer error accumulation. -/
def bresenham_line (start finish : ℤ × ℤ) : List (ℤ × ℤ) :=
  let dx := |finish.1 - start.1|
  let dy := |finish.2 - start.2|
  let sx : ℤ := if start.1 < finish.1 then 1 else -1
  let sy : ℤ := if start.2 < finish.2 then 1 else -1
  bresLoop finish.1 finish.2 sx sy dx dy (dx + dy + 1).toNat start.1 start.2 (dx - dy)

/-- The cells of the line checked by `has_line_of_sight` and
`get_cover_between`: every cell except the first (index 0) and the last
(index `len - 1`). -/
def middle_cells (start finish : ℤ × ℤ) : List (ℤ × ℤ) :=
  ((bresenham_line start finish).drop 1).dropLast

/-- `has_line_of_sight` (line_of_sight.py lines 83-146): every intermediate
cell must be in bounds, must not block sight and — when `ignore_units` is
false — must be unoccupied. -/
def has_line_of_sight (start finish : ℤ × ℤ) (g : Grid) (ignore_units : Bool := true) :
    Bool :=
  (middle_cells start finish).all fun p =>
    match g.get_tile p.1 p.2 with
    | none => false
    | some t => !t.terrain.blocks_sight && (ignore_units || !t.occupied)

/-- `get_cover_between` (line_of_sight.py lines 193-241): full cover wins if
any intermediate cell is full cover (the loop returns it immediately),
otherwise half cover if any intermediate cell is half cover, otherwise empty;
out-of-bounds intermediate cells are skipped. -/
def get_cover_between (start finish : ℤ × ℤ) (g : Grid) : Terrain :=
  let cells := middle_cells start finish
  if cells.any (fun p => match g.get_tile p.1 p.2 with
      | some t => t.terrain = Terrain.full_cover
      | none => false) then
    Terrain.full_cover
  else if cells.any (fun p => match g.get_tile p.1 p.2 with
      | some t => t.terrain = Terrain.half_cover
      | none => false) then
    Terrain.half_cover
  else
    Terrain.empty

/-- A 10x10 grid with a single full-cover tile at (1, 0) and no units. -/
def losGrid : Grid :=
  { size := GRID_SIZE
    tiles := fun x y =>
      { terrain := if x = 1 ∧ y = 0 then Terrain.full_cover else Terrain.empty
        occupied := false } }

/-- Counterexample for C4: on a grid whose only obstacle is full cover at
(1, 0), the line from (0, 0) to (2, 1) passes through (1, 0) and is blocked,
while the reverse line from (2, 1) to (0, 0) passes through (1, 1) and is
clear, so `has_line_of_sight` is not symmetric. -/
theorem has_line_of_sight_not_symm :
    has_line_of_sight (0, 0) (2, 1) losGrid = false ∧
    has_line_of_sight (2, 1) (0, 0) losGrid = true := by
  constructor <;> rfl

/-! Symmetry of line of sight in the collinear cases.  When the two endpoints
share a row or a column or lie on an exact diagonal, the Bresenham loop steps
uniformly (the error term is invariant), the rasterized lines of the two
directions traverse the same cells, and `has_line_of_sight` is symmetric. -/

theorem bresLoop_uniform (x1 y1 sx sy dx dy ux uy e : ℤ)
    (hux : (if 2 * e > -dy then sx else 0) = ux)
    (huy : (if 2 * e < dx then sy else 0) = uy)
    (herr : (if 2 * e > -dy then e - dy else e) + (if 2 * e < dx then dx else 0) = e)
    (hne : ¬(ux = 0 ∧ uy = 0)) :
    ∀ (n fuel : ℕ) (x y : ℤ), n < fuel → x1 = x + n * ux → y1 = y + n * uy →
      bresLoop x1 y1 sx sy dx dy fuel x y e
        = (List.range (n + 1)).map fun k : ℕ => (x + (k : ℤ) * ux, y + (k : ℤ) * uy) := by
  have hstep : ∀ x y : ℤ, bresStep sx sy dx dy x y e = (x + ux, y + uy, e) := by
    intro x y
    unfold bresStep
    by_cases h1 : 2 * e > -dy <;> by_cases h2 : 2 * e < dx <;>
      simp only [h1, h2, if_true, if_false, reduceIte] <;>
      simp only [h1, h2, if_true, if_false, reduceIte] at hux huy herr <;>
      subst hux huy <;> simp <;> omega
  intro n
  induction n with
  | zero =>
    intro fuel x y hfuel hx hy
    obtain ⟨f, rfl⟩ : ∃ f, fuel = f + 1 := ⟨fuel - 1, by omega⟩
    simp only [Nat.cast_zero, zero_mul, add_zero] at hx hy
    subst hx hy
    rw [bresLoop, if_pos ⟨rfl, rfl⟩]
    simp [List.range_succ]
  | succ m ih =>
    intro fuel x y hfuel hx hy
    obtain ⟨f, rfl⟩ : ∃ f, fuel = f + 1 := ⟨fuel - 1, by omega⟩
    have hneq : ¬(x = x1 ∧ y = y1) := by
      rintro ⟨rfl, rfl⟩
      rcases mul_eq_zero.mp (by push_cast at hx; linarith : ((m : ℤ) + 1) * ux = 0) with h | h
      · omega
      · rcases mul_eq_zero.mp (by push_cast at hy; linarith : ((m : ℤ) + 1) * uy = 0) with h2 | h2
        · omega
        · exact hne ⟨h, h2⟩
    rw [bresLoop]
    rw [if_neg hneq, hstep]
    have hx2 : x1 = (x + ux) + m * ux := by rw [hx]; push_cast; ring
    have hy2 : y1 = (y + uy) + m * uy := by rw [hy]; push_cast; ring
    rw [ih f (x + ux) (y + uy) (by omega) hx2 hy2]
    conv_rhs => rw [List.range_succ_eq_map, List.map_cons, List.map_map]
    refine congrArg₂ List.cons ?_ ?_
    · simp
    · apply List.map_congr_left
      intro k _
      simp only [Function.comp_apply, Prod.mk.injEq]
      constructor <;> push_cast <;> ring

/-- Helper: dropping the first and last element of a map over `range (n+1)`. -/
theorem drop1_dropLast_map_range {α : Type} (f : ℕ → α) (n : ℕ) :
    (((List.range (n + 1)).map f).drop 1).dropLast
      = (List.range (n - 1)).map fun k => f (k + 1) := by
  cases n with
  | zero => simp [List.range_succ]
  | succ m =>
    rw [List.range_succ_eq_map, List.map_cons]
    rw [show (1 : ℕ) = 0 + 1 from rfl, List.drop_succ_cons, List.drop_zero]
    rw [List.map_map, List.range_succ, List.map_append]
    simp only [List.map_cons, List.map_nil]
    rw [List.dropLast_concat]
    simp [Function.comp]

/-- Helper: `List.all` only depends on the membership set of the list. -/
theorem all_eq_of_mem_iff {α : Type} {l1 l2 : List α} (f : α → Bool)
    (h : ∀ x, x ∈ l1 ↔ x ∈ l2) : l1.all f = l2.all f := by
  have h1 : (l1.all f = true) ↔ (l2.all f = true) := by
    simp only [List.all_eq_true]
    exact ⟨fun H x hx => H x ((h x).2 hx), fun H x hx => H x ((h x).1 hx)⟩
  cases e1 : l1.all f <;> cases e2 : l2.all f <;> simp_all

/-- Closed form of the Bresenham line between two distinct points of the same
row: a uniform horizontal walk. -/
theorem bresenham_line_row (x0 x1 y : ℤ) (h : x0 ≠ x1) :
    bresenham_line (x0, y) (x1, y)
      = (List.range ((x1 - x0).natAbs + 1)).map
          fun k : ℕ => (x0 + (k : ℤ) * (if x0 < x1 then 1 else -1), y + (k : ℤ) * 0) := by
  have hrfl : bresenham_line (x0, y) (x1, y)
      = bresLoop x1 y (if x0 < x1 then 1 else -1) (if y < y then 1 else -1)
          |x1 - x0| |y - y| (|x1 - x0| + |y - y| + 1).toNat x0 y (|x1 - x0| - |y - y|) := rfl
  rw [hrfl]
  simp only [sub_self, abs_zero, add_zero, sub_zero, lt_self_iff_false, if_false,
    Int.abs_eq_natAbs]
  apply bresLoop_uniform
  · rw [if_pos]; omega
  · rw [if_neg]
    omega
  · rw [if_pos, if_neg] <;> omega
  · rintro ⟨h1, _⟩; split at h1 <;> omega
  · omega
  · split <;> omega
  · omega

/-- Closed form of the Bresenham line between two distinct points of the same
column: a uniform vertical walk. -/
theorem bresenham_line_col (x y0 y1 : ℤ) (h : y0 ≠ y1) :
    bresenham_line (x, y0) (x, y1)
      = (List.range ((y1 - y0).natAbs + 1)).map
          fun k : ℕ => (x + (k : ℤ) * 0, y0 + (k : ℤ) * (if y0 < y1 then 1 else -1)) := by
  have hrfl : bresenham_line (x, y0) (x, y1)
      = bresLoop x y1 (if x < x then 1 else -1) (if y0 < y1 then 1 else -1)
          |x - x| |y1 - y0| (|x - x| + |y1 - y0| + 1).toNat x y0 (|x - x| - |y1 - y0|) := rfl
  rw [hrfl]
  simp only [sub_self, abs_zero, zero_add, zero_sub, lt_self_iff_false, if_false,
    Int.abs_eq_natAbs]
  apply bresLoop_uniform
  · rw [if_neg]
    omega
  · rw [if_pos]; omega
  · rw [if_neg, if_pos] <;> omega
  · rintro ⟨_, h2⟩; split at h2 <;> omega
  · omega
  · omega
  · split <;> omega

/-- Closed form of the Bresenham line between two distinct points on an exact
diagonal: a uniform diagonal walk. -/
theorem bresenham_line_diag (x0 y0 x1 y1 : ℤ) (hx : x0 ≠ x1)
    (hd : |x1 - x0| = |y1 - y0|) :
    bresenham_line (x0, y0) (x1, y1)
      = (List.range ((x1 - x0).natAbs + 1)).map
          fun k : ℕ => (x0 + (k : ℤ) * (if x0 < x1 then 1 else -1),
                        y0 + (k : ℤ) * (if y0 < y1 then 1 else -1)) := by
  have hrfl : bresenham_line (x0, y0) (x1, y1)
      = bresLoop x1 y1 (if x0 < x1 then 1 else -1) (if y0 < y1 then 1 else -1)
          |x1 - x0| |y1 - y0| (|x1 - x0| + |y1 - y0| + 1).toNat x0 y0
          (|x1 - x0| - |y1 - y0|) := rfl
  rw [hrfl]
  rw [← hd, sub_self]
  simp only [Int.abs_eq_natAbs] at hd ⊢
  apply bresLoop_uniform
  · rw [if_pos]; omega
  · rw [if_pos]; omega
  · rw [if_pos, if_pos] <;> omega
  · rintro ⟨h1, _⟩; split at h1 <;> omega
  · omega
  · split <;> omega
  · have hy : y0 ≠ y1 := by
      intro he
      rw [he] at hd
      simp at hd
      omega
    split <;> omega
/-- The intermediate cells of a same-row line, as an explicit list. -/
def rowMiddle (a b y : ℤ) : List (ℤ × ℤ) :=
  (List.range ((b - a).natAbs - 1)).map
    fun k : ℕ => (a + ((k : ℤ) + 1) * (if a < b then 1 else -1), y)

/-- The intermediate cells of a same-column line, as an explicit list. -/
def colMiddle (x a b : ℤ) : List (ℤ × ℤ) :=
  (List.range ((b - a).natAbs - 1)).map
    fun k : ℕ => (x, a + ((k : ℤ) + 1) * (if a < b then 1 else -1))

/-- The intermediate cells of an exact-diagonal line, as an explicit list. -/
def diagMiddle (a1 a2 b1 b2 : ℤ) : List (ℤ × ℤ) :=
  (List.range ((b1 - a1).natAbs - 1)).map
    fun k : ℕ => (a1 + ((k : ℤ) + 1) * (if a1 < b1 then 1 else -1),
                  a2 + ((k : ℤ) + 1) * (if a2 < b2 then 1 else -1))

theorem middle_cells_row (x0 x1 y : ℤ) (h : x0 ≠ x1) :
    middle_cells (x0, y) (x1, y) = rowMiddle x0 x1 y := by
  unfold middle_cells rowMiddle
  rw [bresenham_line_row x0 x1 y h, drop1_dropLast_map_range]
  apply List.map_congr_left
  intro k _
  simp only [Prod.mk.injEq]
  constructor <;> push_cast <;> ring

theorem middle_cells_col (x y0 y1 : ℤ) (h : y0 ≠ y1) :
    middle_cells (x, y0) (x, y1) = colMiddle x y0 y1 := by
  unfold middle_cells colMiddle
  rw [bresenham_line_col x y0 y1 h, drop1_dropLast_map_range]
  apply List.map_congr_left
  intro k _
  simp only [Prod.mk.injEq]
  constructor <;> push_cast <;> ring

theorem middle_cells_diag (x0 y0 x1 y1 : ℤ) (hx : x0 ≠ x1)
    (hd : |x1 - x0| = |y1 - y0|) :
    middle_cells (x0, y0) (x1, y1) = diagMiddle x0 y0 x1 y1 := by
  unfold middle_cells diagMiddle
  rw [bresenham_line_diag x0 y0 x1 y1 hx hd, drop1_dropLast_map_range]
  apply List.map_congr_left
  intro k _
  simp only [Prod.mk.injEq]
  constructor <;> push_cast <;> ring

theorem rowMiddle_incl (x0 x1 y : ℤ) (h : x0 ≠ x1) (p : ℤ × ℤ)
    (hp : p ∈ rowMiddle x0 x1 y) : p ∈ rowMiddle x1 x0 y := by
  unfold rowMiddle at hp ⊢
  simp only [List.mem_map, List.mem_range] at hp ⊢
  obtain ⟨k, hk, rfl⟩ := hp
  refine ⟨(x1 - x0).natAbs - 2 - k, by omega, ?_⟩
  simp only [Prod.mk.injEq]
  refine ⟨?_, trivial⟩
  rcases lt_or_gt_of_ne h with hlt | hgt
  · rw [if_pos hlt, if_neg (by omega : ¬ x1 < x0)]
    omega
  · rw [if_neg (by omega : ¬ x0 < x1), if_pos (by omega : x1 < x0)]
    omega

theorem colMiddle_incl (x y0 y1 : ℤ) (h : y0 ≠ y1) (p : ℤ × ℤ)
    (hp : p ∈ colMiddle x y0 y1) : p ∈ colMiddle x y1 y0 := by
  unfold colMiddle at hp ⊢
  simp only [List.mem_map, List.mem_range] at hp ⊢
  obtain ⟨k, hk, rfl⟩ := hp
  refine ⟨(y1 - y0).natAbs - 2 - k, by omega, ?_⟩
  simp only [Prod.mk.injEq]
  refine ⟨trivial, ?_⟩
  rcases lt_or_gt_of_ne h with hlt | hgt
  · rw [if_pos hlt, if_neg (by omega : ¬ y1 < y0)]
    omega
  · rw [if_neg (by omega : ¬ y0 < y1), if_pos (by omega : y1 < y0)]
    omega

theorem diagMiddle_incl (x0 y0 x1 y1 : ℤ) (hx : x0 ≠ x1) (hy : y0 ≠ y1)
    (hd : (x1 - x0).natAbs = (y1 - y0).natAbs) (p : ℤ × ℤ)
    (hp : p ∈ diagMiddle x0 y0 x1 y1) : p ∈ diagMiddle x1 y1 x0 y0 := by
  unfold diagMiddle at hp ⊢
  simp only [List.mem_map, List.mem_range] at hp ⊢
  obtain ⟨k, hk, rfl⟩ := hp
  have hd2 : (x0 - x1).natAbs = (y0 - y1).natAbs := by omega
  refine ⟨(x1 - x0).natAbs - 2 - k, by omega, ?_⟩
  simp only [Prod.mk.injEq]
  constructor
  · rcases lt_or_gt_of_ne hx with hlt | hgt
    · rw [if_pos hlt, if_neg (by omega : ¬ x1 < x0)]
      omega
    · rw [if_neg (by omega : ¬ x0 < x1), if_pos (by omega : x1 < x0)]
      omega
  · rcases lt_or_gt_of_ne hy with hlt | hgt
    · rw [if_pos hlt, if_neg (by omega : ¬ y1 < y0)]
      omega
    · rw [if_neg (by omega : ¬ y0 < y1), if_pos (by omega : y1 < y0)]
      omega

/-- C4 (amended): `has_line_of_sight` is not symmetric in general (see the
counterexample at (0,0)/(2,1)), but it is symmetric between any two positions
that share a row, share a column, or lie on an exact diagonal, on every grid
and for both unit-ignoring modes. -/
theorem has_line_of_sight_symm_collinear (g : Grid) (iu : Bool) (a b : ℤ × ℤ)
    (h : a.1 = b.1 ∨ a.2 = b.2 ∨ |b.1 - a.1| = |b.2 - a.2|) :
    has_line_of_sight a b g iu = has_line_of_sight b a g iu := by
  obtain ⟨ax, ay⟩ := a
  obtain ⟨bx, by2⟩ := b
  simp only at h
  by_cases hx : ax = bx
  · by_cases hy : ay = by2
    · subst hx hy; rfl
    · subst hx
      unfold has_line_of_sight
      apply all_eq_of_mem_iff
      intro p
      rw [middle_cells_col ax ay by2 hy, middle_cells_col ax by2 ay (Ne.symm hy)]
      exact ⟨colMiddle_incl ax ay by2 hy p, colMiddle_incl ax by2 ay (Ne.symm hy) p⟩
  · by_cases hy : ay = by2
    · subst hy
      unfold has_line_of_sight
      apply all_eq_of_mem_iff
      intro p
      rw [middle_cells_row ax bx ay hx, middle_cells_row bx ax ay (Ne.symm hx)]
      exact ⟨rowMiddle_incl ax bx ay hx p, rowMiddle_incl bx ax ay (Ne.symm hx) p⟩
    · rcases h with h | h | h
      · exact absurd h hx
      · exact absurd h hy
      · have hd2 : (bx - ax).natAbs = (by2 - ay).natAbs := by
          have := congrArg Int.natAbs h
          simpa [Int.natAbs_abs] using this
        have hd3 : (ax - bx).natAbs = (ay - by2).natAbs := by omega
        unfold has_line_of_sight
        apply all_eq_of_mem_iff
        intro p
        rw [middle_cells_diag ax ay bx by2 hx h,
          middle_cells_diag bx by2 ax ay (Ne.symm hx) (by
            rw [Int.abs_eq_natAbs, Int.abs_eq_natAbs]
            omega)]
        exact ⟨diagMiddle_incl ax ay bx by2 hx hy hd2 p,
          diagMiddle_incl bx by2 ax ay (Ne.symm hx) (Ne.symm hy) hd3 p⟩

/-- Witness for C4 (amended): on the concrete grid of the counterexample, the
pair (0,0) and (3,0) shares a row and line of sight between them is symmetric. -/
theorem has_line_of_sight_symm_collinear_witness :
    (((0 : ℤ), (0 : ℤ)).1 = ((3 : ℤ), (0 : ℤ)).1 ∨ ((0 : ℤ), (0 : ℤ)).2 = ((3 : ℤ), (0 : ℤ)).2 ∨
      |((3 : ℤ), (0 : ℤ)).1 - ((0 : ℤ), (0 : ℤ)).1| =
        |((3 : ℤ), (0 : ℤ)).2 - ((0 : ℤ), (0 : ℤ)).2|) ∧
    has_line_of_sight (0, 0) (3, 0) losGrid = has_line_of_sight (3, 0) (0, 0) losGrid :=
  ⟨Or.inr (Or.inl rfl),
    has_line_of_sight_symm_collinear losGrid true (0, 0) (3, 0) (Or.inr (Or.inl rfl))⟩
/-! ## Grid occupancy bookkeeping (src/combat/grid.py, lines 129-196)

For the occupancy/position agreement claim the grid is modelled as the
occupancy relation together with the unit-side back references: `occupant`
maps a coordinate to the id of the unit standing there (`Tile.occupied_by`)
and `pos` maps a unit id to its `Unit.position` field. -/

structure OccGrid where
  size : ℕ
  occupant : ℤ × ℤ → Option ℕ
  pos : ℕ → Option (ℤ × ℤ)

/-- Bounds check (grid.py `is_valid_position`, used through `get_tile`). -/
def OccGrid.is_valid (g : OccGrid) (x y : ℤ) : Bool :=
  0 ≤ x && x < g.size && 0 ≤ y && y < g.size

/-- `Grid.place_unit` (grid.py lines 129-146): when the tile exists and is
unoccupied, set the tile occupant and the unit position; otherwise fail. -/
def OccGrid.place_unit (g : OccGrid) (u : ℕ) (x y : ℤ) : Bool × OccGrid :=
  if g.is_valid x y ∧ g.occupant (x, y) = none then
    (true,
      { g with
        occupant := fun p => if p = (x, y) then some u else g.occupant p
        pos := fun v => if v = u then some (x, y) else g.pos v })
  else (false, g)

/-- `Grid.remove_unit` (grid.py lines 148-163): when the tile exists and is
occupied, clear the tile occupant.  The `position` field of the removed unit is
NOT touched by the source. -/
def OccGrid.remove_unit (g : OccGrid) (x y : ℤ) : Bool × OccGrid :=
  if g.is_valid x y ∧ (g.occupant (x, y)).isSome then
    (true, { g with occupant := fun p => if p = (x, y) then none else g.occupant p })
  else (false, g)

/-- `Grid.move_unit` (grid.py lines 165-196): both tiles must exist, the
source must be occupied and the destination free; then both tiles and the
unit position are updated. -/
def OccGrid.move_unit (g : OccGrid) (fx fy tx ty : ℤ) : Bool × OccGrid :=
  if ¬ (g.is_valid fx fy ∧ g.is_valid tx ty) then (false, g)
  else
    match g.occupant (fx, fy) with
    | none => (false, g)
    | some u =>
        if (g.occupant (tx, ty)).isSome then (false, g)
        else
          (true,
            { g with
              occupant := fun p =>
                if p = (tx, ty) then some u
                else if p = (fx, fy) then none
                else g.occupant p
              pos := fun v => if v = u then some (tx, ty) else g.pos v })

/-- The occupancy/position agreement invariant of the spec: a tile holds
unit `u` as occupant exactly when the position of `u` is that tile. -/
def OccGrid.agrees (g : OccGrid) : Prop :=
  ∀ (u : ℕ) (p : ℤ × ℤ), g.occupant p = some u ↔ g.pos u = some p

/-- The empty 10x10 grid with no unit placed. -/
def emptyOccGrid : OccGrid :=
  { size := GRID_SIZE, occupant := fun _ => none, pos := fun _ => none }

/-- Counterexample for C7: `remove_unit` clears only the tile occupant and
leaves the position of the removed unit set, so after place-then-remove the
occupancy and the position disagree: the tile (0, 0) is empty while unit 0
still reports position (0, 0). -/
theorem grid_occupancy_counterexample :
    (((emptyOccGrid.place_unit 0 0 0).2.remove_unit 0 0).2.occupant (0, 0) = none) ∧
    (((emptyOccGrid.place_unit 0 0 0).2.remove_unit 0 0).2.pos 0 = some (0, 0)) ∧
    ¬ ((emptyOccGrid.place_unit 0 0 0).2.remove_unit 0 0).2.agrees := by
  refine ⟨by decide, by decide, fun h => ?_⟩
  have h1 := (h 0 (0, 0)).mpr (by decide)
  revert h1
  decide

/-- C7 (amended): `place_unit` of a unit that is not already on the grid and
`move_unit` update the tile occupant and the unit position together and
preserve the agreement invariant; `remove_unit` leaves the position of every
unit unchanged and only clears the tile occupant, so agreement can be broken
after a removal (see the counterexample). -/
theorem grid_occupancy_amended :
    (∀ (g : OccGrid) (u : ℕ) (x y : ℤ), g.agrees → g.pos u = none →
      (g.place_unit u x y).2.agrees) ∧
    (∀ (g : OccGrid) (fx fy tx ty : ℤ), g.agrees →
      (g.move_unit fx fy tx ty).2.agrees) ∧
    (∀ (g : OccGrid) (x y : ℤ),
      (g.remove_unit x y).2.pos = g.pos ∧
      ((g.remove_unit x y).1 = true → (g.remove_unit x y).2.occupant (x, y) = none)) := by
  refine ⟨?_, ?_, ?_⟩
  · intro g u x y hA hpos
    unfold OccGrid.place_unit
    split
    · rename_i hcond
      intro v p
      dsimp only
      by_cases hp : p = (x, y) <;> by_cases hv : v = u
      · rw [if_pos hp, if_pos hv]
        subst hp hv
        simp
      · rw [if_pos hp, if_neg hv]
        subst hp
        constructor
        · intro hq
          exact absurd (Option.some.inj hq).symm hv
        · intro hq
          have hc := (hA v (x, y)).mpr hq
          rw [hcond.2] at hc
          cases hc
      · rw [if_neg hp, if_pos hv]
        subst hv
        constructor
        · intro hq
          have hc := (hA v p).mp hq
          rw [hpos] at hc
          cases hc
        · intro hq
          exact absurd (Option.some.inj hq) fun he => hp he.symm
      · rw [if_neg hp, if_neg hv]
        exact hA v p
    · exact fun _ _ => hA _ _
  · intro g fx fy tx ty hA
    unfold OccGrid.move_unit
    split
    · exact hA
    · cases hocc : g.occupant (fx, fy) with
      | none => exact hA
      | some u =>
        dsimp only
        split
        · exact hA
        · rename_i hto
          have htonone : g.occupant (tx, ty) = none := by
            cases h2 : g.occupant (tx, ty)
            · rfl
            · rw [h2] at hto; simp at hto
          have hftx : (fx, fy) ≠ (tx, ty) := by
            intro he
            rw [he, htonone] at hocc
            cases hocc
          intro v p
          dsimp only
          by_cases hp1 : p = (tx, ty)
          · rw [if_pos hp1]
            subst hp1
            by_cases hv : v = u
            · rw [if_pos hv]
              subst hv
              simp
            · rw [if_neg hv]
              constructor
              · intro hq
                exact absurd (Option.some.inj hq).symm hv
              · intro hq
                have hc := (hA v (tx, ty)).mpr hq
                rw [htonone] at hc
                cases hc
          · rw [if_neg hp1]
            by_cases hp2 : p = (fx, fy)
            · rw [if_pos hp2]
              subst hp2
              by_cases hv : v = u
              · rw [if_pos hv]
                subst hv
                constructor
                · intro hq; cases hq
                · intro hq
                  exact absurd (Option.some.inj hq) fun he => hp1 he.symm
              · rw [if_neg hv]
                constructor
                · intro hq; cases hq
                · intro hq
                  have hc := (hA v (fx, fy)).mpr hq
                  rw [hocc] at hc
                  exact absurd (Option.some.inj hc) fun he => hv he.symm
            · rw [if_neg hp2]
              by_cases hv : v = u
              · rw [if_pos hv]
                subst hv
                constructor
                · intro hq
                  have h1 := (hA v p).mp hq
                  have h2 := (hA v (fx, fy)).mp hocc
                  rw [h1] at h2
                  exact absurd (Option.some.inj h2) hp2
                · intro hq
                  exact absurd (Option.some.inj hq) fun he => hp1 he.symm
              · rw [if_neg hv]
                exact hA v p
  · intro g x y
    unfold OccGrid.remove_unit
    split
    · refine ⟨rfl, fun _ => ?_⟩
      dsimp only
      rw [if_pos rfl]
    · exact ⟨rfl, fun h => by cases h⟩

/-- Witness for C7 (amended): placing unit 0 on the empty grid and moving it
preserves the agreement invariant at a concrete state. -/
theorem grid_occupancy_amended_witness :
    emptyOccGrid.agrees ∧ emptyOccGrid.pos 0 = none ∧
    ((emptyOccGrid.place_unit 0 0 0).2.move_unit 0 0 1 1).2.agrees := by
  have hA : emptyOccGrid.agrees := by
    intro u p
    constructor <;> intro h <;> cases h
  refine ⟨hA, rfl, ?_⟩
  exact grid_occupancy_amended.2.1 (emptyOccGrid.place_unit 0 0 0).2 0 0 1 1
    (grid_occupancy_amended.1 emptyOccGrid 0 0 0 hA rfl)
/-! ## Combat resolution (src/combat/combat_resolver.py, resolve_attack)

`resolve_attack` reads the weapon stats of the attacker and, for investigators,
draws from the personal deck of the attacker via `draw_combat_card`.  The weapon
accessors and the investigator deck wiring are not present under
`src/entities`, so they are modelled from the spec (sections 3 and 4.5): the
equipped weapon supplies damage, range and optional sanity damage, and
`draw_combat_card` draws from the personal combat deck of the unit.

The euclidean distance `sqrt(dx^2 + dy^2)` is compared against the weapon
range and truncated for the distance penalty; both are modelled exactly over
the squared distance: `sqrt(d) > r` iff `r < 0 or d > r^2`, and
`int(sqrt(d)) = Nat.sqrt d` for the grid-sized integers involved. -/

/-- Modelled from the spec: an attacking unit together with its equipped
weapon stats (damage, range, sanity damage, spec section 3 "Unit"), its
archetype flag (investigators draw from a personal deck, spec section 4.5
step 8) and its personal combat deck. -/
structure Combatant where
  unit : Unit
  weapon_damage : ℤ
  weapon_range : ℤ
  weapon_sanity_damage : ℤ
  is_investigator : Bool
  combat_deck : CombatDeck

/-- Squared euclidean distance between two grid positions. -/
def distance_sq (pa pt : ℤ × ℤ) : ℤ :=
  (pt.1 - pa.1) ^ 2 + (pt.2 - pa.2) ^ 2

/-- The hit chance computed inside `resolve_attack` (combat_resolver.py line
163): `calculate_hit_chance` applied to the attacker accuracy, the
euclidean distance (whose `int()` truncation is `Nat.sqrt` of the squared
distance) and the cover returned by `get_cover_between`. -/
def hit_chance_of (a : Combatant) (pa pt : ℤ × ℤ) (g : Grid) : ℤ :=
  max MIN_HIT_CHANCE (min MAX_HIT_CHANCE
    (a.unit.accuracy - (Nat.sqrt (distance_sq pa pt).toNat : ℤ) * DISTANCE_PENALTY_PER_TILE
      - cover_penalty (get_cover_between pa pt g)))

/-- The result dictionary of `resolve_attack` (combat_resolver.py lines
104-122): fields that a given code path does not set are `none`. -/
structure AttackResult where
  valid : Bool
  reason : Option String := none
  hit : Option Bool := none
  hit_chance : Option ℤ := none
  roll : Option ℤ := none
  distance_sq : Option ℤ := none
  cover : Option Terrain := none
  card_drawn : Option String := none
  card_is_crit : Option Bool := none
  card_is_null : Option Bool := none
  base_damage : Option ℤ := none
  final_damage : Option ℤ := none
  damage_dealt : Option ℤ := none
  sanity_damage : Option ℤ := none
  target_killed : Option Bool := none
  weapon_range : Option ℤ := none
deriving DecidableEq, Repr

/-- The full outcome of `resolve_attack`: the result record plus the final
states of the mutated objects (attacker deck, monster deck, target). -/
structure ResolveOut where
  result : AttackResult
  attacker_deck : CombatDeck
  m_deck : Option CombatDeck
  target : Unit
deriving DecidableEq, Repr

/-- `resolve_attack` (combat_resolver.py lines 78-240).  The d100 roll and
the shuffle permutation are injected; the deck used is the
personal deck of the attacker for investigators and the supplied monster
deck otherwise. -/
def resolve_attack (a : Combatant) (target : Unit) (g : Grid)
    (monster_deck : Option CombatDeck) (roll : ℤ) (σ : List Card → List Card) :
    ResolveOut :=
  match a.unit.position, target.position with
  | some pa, some pt =>
      let dSq := distance_sq pa pt
      if a.weapon_range < 0 ∨ a.weapon_range ^ 2 < dSq then
        { result :=
            { valid := false
              reason := some "out_of_range"
              distance_sq := some dSq
              weapon_range := some a.weapon_range },
          attacker_deck := a.combat_deck, m_deck := monster_deck, target := target }
      else if has_line_of_sight pa pt g then
        let cover := get_cover_between pa pt g
        let hc := hit_chance_of a pa pt g
        let base : AttackResult :=
          { valid := true
            hit_chance := some hc
            roll := some roll
            distance_sq := some dSq
            cover := some cover
            base_damage := some a.weapon_damage
            sanity_damage := some 0
            card_drawn := none
            card_is_crit := some false
            card_is_null := some false }
        if roll ≤ hc then
          let drawn : Option Card × CombatDeck × Option CombatDeck :=
            if a.is_investigator then
              ((a.combat_deck.draw σ).1, (a.combat_deck.draw σ).2, monster_deck)
            else
              match monster_deck with
              | some md => ((md.draw σ).1, a.combat_deck, some (md.draw σ).2)
              | none => (none, a.combat_deck, none)
          let base2 : AttackResult :=
            match drawn.1 with
            | some c =>
                { base with
                  card_drawn := some c.name
                  card_is_crit := some c.is_multiply
                  card_is_null := some c.is_null }
            | none => base
          let final_damage :=
            match drawn.1 with
            | some c => c.apply_to_damage a.weapon_damage
            | none => a.weapon_damage
          let damage := target.take_damage final_damage
          let sanity :=
            if a.weapon_sanity_damage > 0 then
              damage.2.take_sanity_damage a.weapon_sanity_damage
            else (0, damage.2)
          { result :=
              { base2 with
                hit := some true
                final_damage := some final_damage
                damage_dealt := some damage.1
                sanity_damage := some sanity.1
                target_killed := some sanity.2.is_incapacitated },
            attacker_deck := drawn.2.1, m_deck := drawn.2.2, target := sanity.2 }
        else
          { result :=
              { base with
                hit := some false
                final_damage := some 0
                damage_dealt := some 0
                target_killed := some false },
            attacker_deck := a.combat_deck, m_deck := monster_deck, target := target }
      else
        { result := { valid := false, reason := some "no_line_of_sight" },
          attacker_deck := a.combat_deck, m_deck := monster_deck, target := target }
  | _, _ =>
      { result := { valid := false, reason := some "attacker or target not on grid" },
        attacker_deck := a.combat_deck, m_deck := monster_deck, target := target }
/-- C2: when the roll misses (roll exceeds the computed hit chance), the
attack resolves immediately to a miss: `hit = false`, zero damage, no card
drawn, and both the personal deck of the attacker and the supplied monster deck
(and the target) are left completely unchanged. -/
theorem resolve_attack_miss_no_draw (a : Combatant) (target : Unit) (g : Grid)
    (md : Option CombatDeck) (roll : ℤ) (σ : List Card → List Card)
    (pa pt : ℤ × ℤ)
    (hpa : a.unit.position = some pa) (hpt : target.position = some pt)
    (hrange : ¬(a.weapon_range < 0 ∨ a.weapon_range ^ 2 < distance_sq pa pt))
    (hlos : has_line_of_sight pa pt g = true)
    (hmiss : hit_chance_of a pa pt g < roll) :
    (resolve_attack a target g md roll σ).result.hit = some false ∧
    (resolve_attack a target g md roll σ).result.final_damage = some 0 ∧
    (resolve_attack a target g md roll σ).result.damage_dealt = some 0 ∧
    (resolve_attack a target g md roll σ).result.card_drawn = none ∧
    (resolve_attack a target g md roll σ).attacker_deck = a.combat_deck ∧
    (resolve_attack a target g md roll σ).m_deck = md ∧
    (resolve_attack a target g md roll σ).target = target := by
  unfold resolve_attack
  rw [hpa, hpt]
  dsimp only
  rw [if_neg hrange, if_pos hlos, if_neg (by omega : ¬ roll ≤ hit_chance_of a pa pt g)]
  exact ⟨rfl, rfl, rfl, rfl, rfl, rfl, rfl⟩

/-- A concrete investigator for the resolver witnesses: accuracy 75, a
3-range 5-damage weapon, personal deck holding a single NULL card. -/
def witness_attacker : Combatant :=
  { unit := { position := some (0, 0), base_accuracy := 75 }
    weapon_damage := 5
    weapon_range := 3
    weapon_sanity_damage := 0
    is_investigator := true
    combat_deck := { draw_pile := [Card.mkCard .NULL 0] } }

/-- A concrete target for the resolver witnesses. -/
def witness_target : Unit := { position := some (1, 0), current_health := 5 }

/-- Witness for C2: the concrete attacker at (0,0) against the target at
(1,0) — hit chance 65 — missing with a roll of 80 draws nothing and leaves
the decks untouched. -/
theorem resolve_attack_miss_no_draw_witness :
    witness_attacker.unit.position = some (0, 0) ∧
    witness_target.position = some (1, 0) ∧
    ¬(witness_attacker.weapon_range < 0 ∨
      witness_attacker.weapon_range ^ 2 < distance_sq (0, 0) (1, 0)) ∧
    has_line_of_sight (0, 0) (1, 0) losGrid = true ∧
    hit_chance_of witness_attacker (0, 0) (1, 0) losGrid < 80 ∧
    ((resolve_attack witness_attacker witness_target losGrid none 80 id).result.hit
        = some false ∧
      (resolve_attack witness_attacker witness_target losGrid none 80 id).result.final_damage
        = some 0 ∧
      (resolve_attack witness_attacker witness_target losGrid none 80 id).result.damage_dealt
        = some 0 ∧
      (resolve_attack witness_attacker witness_target losGrid none 80 id).result.card_drawn
        = none ∧
      (resolve_attack witness_attacker witness_target losGrid none 80 id).attacker_deck
        = witness_attacker.combat_deck ∧
      (resolve_attack witness_attacker witness_target losGrid none 80 id).m_deck = none ∧
      (resolve_attack witness_attacker witness_target losGrid none 80 id).target
        = witness_target) :=
  ⟨rfl, rfl, by decide, by decide, by decide,
    resolve_attack_miss_no_draw witness_attacker witness_target losGrid none 80 id
      (0, 0) (1, 0) rfl rfl (by decide) (by decide) (by decide)⟩

/-- C9: a hit whose drawn card is NULL reports `hit = true` with
`final_damage = 0` and `damage_dealt = 0`, whatever the base
weapon damage of the attacker is (the claim covers both the personal-deck and the
monster-deck draw). -/
theorem resolve_attack_null_card (a : Combatant) (target : Unit) (g : Grid)
    (md : Option CombatDeck) (roll : ℤ) (σ : List Card → List Card)
    (pa pt : ℤ × ℤ)
    (hpa : a.unit.position = some pa) (hpt : target.position = some pt)
    (hrange : ¬(a.weapon_range < 0 ∨ a.weapon_range ^ 2 < distance_sq pa pt))
    (hlos : has_line_of_sight pa pt g = true)
    (hhit : roll ≤ hit_chance_of a pa pt g)
    (hhp : 0 ≤ target.current_health)
    (hnull : (resolve_attack a target g md roll σ).result.card_is_null = some true) :
    (resolve_attack a target g md roll σ).result.hit = some true ∧
    (resolve_attack a target g md roll σ).result.final_damage = some 0 ∧
    (resolve_attack a target g md roll σ).result.damage_dealt = some 0 := by
  unfold resolve_attack at hnull ⊢
  rw [hpa, hpt] at hnull ⊢
  dsimp only at hnull ⊢
  rw [if_neg hrange, if_pos hlos, if_pos hhit] at hnull ⊢
  cases hinv : a.is_investigator with
  | true =>
    simp only [hinv, if_true, reduceIte] at hnull ⊢
    cases hcard : (a.combat_deck.draw σ).1 with
    | none =>
      rw [hcard] at hnull
      simp at hnull
    | some c =>
      rw [hcard] at hnull
      dsimp only at hnull ⊢
      have hcn : c.is_null = true := by
        simpa using hnull
      have hct : c.card_type = CardType.NULL := by
        unfold Card.is_null at hcn
        simpa using hcn
      have happ : c.apply_to_damage a.weapon_damage = 0 := by
        unfold Card.apply_to_damage
        rw [hct]
      rw [happ]
      refine ⟨trivial, rfl, ?_⟩
      have hdealt : (target.take_damage 0).1 = 0 := by
        unfold Unit.take_damage
        dsimp only
        split <;> omega
      simp [hdealt]
  | false =>
    simp only [hinv, if_false, Bool.false_eq_true, reduceIte] at hnull ⊢
    cases md with
    | none =>
      simp at hnull
    | some md0 =>
      dsimp only at hnull ⊢
      cases hcard : (md0.draw σ).1 with
      | none =>
        rw [hcard] at hnull
        simp at hnull
      | some c =>
        rw [hcard] at hnull
        dsimp only at hnull ⊢
        have hcn : c.is_null = true := by
          simpa using hnull
        have hct : c.card_type = CardType.NULL := by
          unfold Card.is_null at hcn
          simpa using hcn
        have happ : c.apply_to_damage a.weapon_damage = 0 := by
          unfold Card.apply_to_damage
          rw [hct]
        rw [happ]
        refine ⟨trivial, rfl, ?_⟩
        have hdealt : (target.take_damage 0).1 = 0 := by
          unfold Unit.take_damage
          dsimp only
          split <;> omega
        simp [hdealt]

/-- Witness for C9: the concrete attacker hitting with a roll of 50 draws the
NULL card from its one-card deck and deals 0 damage while reporting a hit. -/
theorem resolve_attack_null_card_witness :
    witness_attacker.unit.position = some (0, 0) ∧
    witness_target.position = some (1, 0) ∧
    ¬(witness_attacker.weapon_range < 0 ∨
      witness_attacker.weapon_range ^ 2 < distance_sq (0, 0) (1, 0)) ∧
    has_line_of_sight (0, 0) (1, 0) losGrid = true ∧
    (50 : ℤ) ≤ hit_chance_of witness_attacker (0, 0) (1, 0) losGrid ∧
    0 ≤ witness_target.current_health ∧
    (resolve_attack witness_attacker witness_target losGrid none 50 id).result.card_is_null
      = some true ∧
    ((resolve_attack witness_attacker witness_target losGrid none 50 id).result.hit
        = some true ∧
      (resolve_attack witness_attacker witness_target losGrid none 50 id).result.final_damage
        = some 0 ∧
      (resolve_attack witness_attacker witness_target losGrid none 50 id).result.damage_dealt
        = some 0) :=
  ⟨rfl, rfl, by decide, by decide, by decide, by decide, by decide,
    resolve_attack_null_card witness_attacker witness_target losGrid none 50 id
      (0, 0) (1, 0) rfl rfl (by decide) (by decide) (by decide) (by decide) (by decide)⟩
/-! ## Pathfinding costs and reachability flood fill (src/combat/pathfinding.py)

Every accumulated path cost in the source is a sum of 1.0 (orthogonal steps)
and `math.sqrt(2)` (diagonal steps); it is modelled exactly as the pair
(number of orthogonal steps, number of diagonal steps), whose real value is
`a + b * sqrt 2`, compared against the integer movement budget through the
real ordering (decidable by squaring). -/

/-- Real value of a path cost pair. -/
noncomputable def costVal (c : ℕ × ℕ) : ℝ :=
  (c.1 : ℝ) + (c.2 : ℝ) * Real.sqrt 2

/-- The comparison `cost ≤ budget` used by the source (`new_dist >
movement_range` and `accumulated_cost + step_cost <= max_tiles`), as the real
ordering. -/
def costLe (c : ℕ × ℕ) (r : ℕ) : Prop :=
  costVal c ≤ (r : ℝ)

theorem costLe_iff (c : ℕ × ℕ) (r : ℕ) :
    costLe c r ↔ c.1 ≤ r ∧ 2 * c.2 ^ 2 ≤ (r - c.1) ^ 2 := by
  obtain ⟨a, b⟩ := c
  unfold costLe costVal
  dsimp only
  constructor
  · intro h
    have hb : (0 : ℝ) ≤ (b : ℝ) * Real.sqrt 2 := by positivity
    have ha : (a : ℝ) ≤ (r : ℝ) := by linarith
    have ha2 : a ≤ r := by exact_mod_cast ha
    refine ⟨ha2, ?_⟩
    have h2 : (b : ℝ) * Real.sqrt 2 ≤ (r : ℝ) - (a : ℝ) := by linarith
    have h3 : ((b : ℝ) * Real.sqrt 2) ^ 2 ≤ ((r : ℝ) - (a : ℝ)) ^ 2 := by
      apply pow_le_pow_left₀ (by positivity) h2
    rw [mul_pow, Real.sq_sqrt (by norm_num : (0:ℝ) ≤ 2)] at h3
    have h4 : ((r : ℝ) - (a : ℝ)) = ((r - a : ℕ) : ℝ) := by
      push_cast [Nat.cast_sub ha2]
      ring
    rw [h4] at h3
    have h5 : (b : ℝ) ^ 2 * 2 ≤ ((r - a : ℕ) : ℝ) ^ 2 := h3
    have h6 : ((2 * b ^ 2 : ℕ) : ℝ) ≤ (((r - a) ^ 2 : ℕ) : ℝ) := by push_cast; linarith
    exact_mod_cast h6
  · rintro ⟨ha, hb⟩
    have h2 : ((b : ℝ) * Real.sqrt 2) ^ 2 ≤ ((r - a : ℕ) : ℝ) ^ 2 := by
      rw [mul_pow, Real.sq_sqrt (by norm_num : (0:ℝ) ≤ 2)]
      have : ((2 * b ^ 2 : ℕ) : ℝ) ≤ (((r - a) ^ 2 : ℕ) : ℝ) := by exact_mod_cast hb
      push_cast at this
      linarith
    have h3 : (b : ℝ) * Real.sqrt 2 ≤ ((r - a : ℕ) : ℝ) :=
      le_of_pow_le_pow_left₀ (by norm_num) (by positivity) h2
    have h4 : ((r - a : ℕ) : ℝ) = (r : ℝ) - (a : ℝ) := by
      push_cast [Nat.cast_sub ha]
      ring
    rw [h4] at h3
    linarith

instance (c : ℕ × ℕ) (r : ℕ) : Decidable (costLe c r) :=
  decidable_of_iff _ (costLe_iff c r).symm

/-- Pair addition of path costs. -/
def addCost (c d : ℕ × ℕ) : ℕ × ℕ := (c.1 + d.1, c.2 + d.2)

/-- Per-step movement cost (pathfinding.py lines 192-200 and 292-298):
`sqrt(2)` when `|dx| + |dy| = 2` (diagonal), 1.0 otherwise. -/
def move_cost (p q : ℤ × ℤ) : ℕ × ℕ :=
  if |q.1 - p.1| + |q.2 - p.2| = 2 then (0, 1) else (1, 0)

/-- `Grid.get_neighbors` (grid.py lines 224-251): the four orthogonal
neighbors in order up/down/right/left, then the four diagonal ones, each kept
only when inside the bounds. -/
def Grid.get_neighbors (g : Grid) (x y : ℤ) (diagonal : Bool := true) :
    List (ℤ × ℤ) :=
  (([( (0:ℤ), (1:ℤ)), (0, -1), (1, 0), (-1, 0)] ++
    (if diagonal then [((1:ℤ), (1:ℤ)), (1, -1), (-1, 1), (-1, -1)] else [])).map
      (fun d => (x + d.1, y + d.2))).filter
    fun p => g.is_valid_position p.1 p.2

/-- State of the flood fill of `get_reachable_tiles`: the reachable
accumulator, the recorded distances (an association list standing for the
`distances` dict) and the FIFO frontier. -/
structure BfsState where
  reachable : List (ℤ × ℤ)
  dist : List ((ℤ × ℤ) × (ℕ × ℕ))
  frontier : List ((ℤ × ℤ) × (ℕ × ℕ))
deriving Repr

/-- The neighbor-processing body of `get_reachable_tiles` (pathfinding.py
lines 274-314): skip if already recorded, out of bounds, blocked or occupied;
compute the step cost; skip when over the budget; otherwise add the tile to
the reachable set (unless it is the start), record its distance and push it
on the frontier. -/
def processNeighbor (g : Grid) (start : ℤ × ℤ) (r : ℕ) (cur : ℤ × ℤ)
    (curd : ℕ × ℕ) (st : BfsState) (nb : ℤ × ℤ) : BfsState :=
  if (st.dist.lookup nb).isSome then st
  else
    match g.get_tile nb.1 nb.2 with
    | none => st
    | some t =>
        if t.terrain.blocks_movement then st
        else if t.occupied then st
        else
          let nd := addCost curd (move_cost cur nb)
          if costLe nd r then
            { reachable := st.reachable ++ (if nb = start then [] else [nb])
              dist := st.dist ++ [(nb, nd)]
              frontier := st.frontier ++ [(nb, nd)] }
          else st

/-- The `while frontier` loop of `get_reachable_tiles` (pathfinding.py lines
268-314), with fuel.  Each iteration pops the front of the frontier and
processes its neighbors in order.  A tile enters the frontier at most once
(when it is first recorded), so `size^2 + 1` iterations always suffice. -/
def bfsLoop (g : Grid) (start : ℤ × ℤ) (r : ℕ) : ℕ → BfsState → List (ℤ × ℤ)
  | 0, st => st.reachable
  | fuel + 1, st =>
      match st.frontier with
      | [] => st.reachable
      | (cur, curd) :: rest =>
          bfsLoop g start r fuel
            ((g.get_neighbors cur.1 cur.2 true).foldl
              (processNeighbor g start r cur curd) { st with frontier := rest })

/-- `get_reachable_tiles` (pathfinding.py lines 234-316). -/
def get_reachable_tiles (g : Grid) (sx sy : ℤ) (r : ℕ) : List (ℤ × ℤ) :=
  bfsLoop g (sx, sy) r (g.size * g.size + 1)
    { reachable := [], dist := [((sx, sy), (0, 0))], frontier := [((sx, sy), (0, 0))] }

/-- 8-directional adjacency of two distinct cells (the edge relation searched
by `find_path`). -/
def isNeighborCell (p q : ℤ × ℤ) : Bool :=
  decide (p ≠ q) && decide (|q.1 - p.1| ≤ 1) && decide (|q.2 - p.2| ≤ 1)

/-- A cell a path may step onto (pathfinding.py lines 183-190): in bounds,
not `blocks_movement`, not occupied. -/
def free_cell (g : Grid) (p : ℤ × ℤ) : Bool :=
  match g.get_tile p.1 p.2 with
  | none => false
  | some t => !t.terrain.blocks_movement && !t.occupied

/-- A legal walk for `find_path`: consecutive cells 8-adjacent, every cell
after the first free (the start cell is the own tile of the moving unit). -/
def valid_walk (g : Grid) : List (ℤ × ℤ) → Bool
  | [] => true
  | [_] => true
  | p :: q :: rest => isNeighborCell p q && free_cell g q && valid_walk g (q :: rest)

/-- Accumulated cost of a walk, exactly as `find_path` accumulates `g_cost`. -/
def path_cost : List (ℤ × ℤ) → ℕ × ℕ
  | p :: q :: rest => addCost (move_cost p q) (path_cost (q :: rest))
  | _ => (0, 0)
/-- The battlefield exhibiting the reachability bug: an 8x8 grid whose only
obstacles are units standing on the marked tiles. -/
def c5Grid : Grid :=
  { size := 8
    tiles := fun x y =>
      { terrain := Terrain.empty
        occupied := decide ((x, y) ∈ [((3:ℤ), (1:ℤ)), (3, 2), (4, 3), (4, 4),
          (5, 2), (5, 4), (6, 2), (6, 3), (6, 4)]) } }

/-- A legal movement path from (0,0) to (5,3) on `c5Grid`: four orthogonal
steps and two diagonal steps, total cost `4 + 2*sqrt 2 ≈ 6.83`. -/
def c5Path : List (ℤ × ℤ) := [(0, 0), (1, 0), (2, 0), (3, 0), (4, 1), (4, 2), (5, 3)]

/-- C5 (failing input): on `c5Grid` with start (0,0) and movement range 7,
the tile (5,3) is reachable by a legal walk of cost `4 + 2*sqrt 2 ≤ 7` — the
cost model under which `find_path` with `max_distance = 7` validates it — yet
`get_reachable_tiles` omits it.  The flood fill records the first-found (not
the cheapest) distance: it reaches (4,2) first through (3,3) at cost
`4*sqrt 2 ≈ 5.66` (the cheaper `4 + sqrt 2 ≈ 5.41` route through (4,1) is
discarded because (4,2) is already recorded), so the only visit to (5,3)
is costed `5*sqrt 2 ≈ 7.07 > 7` and skipped.  With budget 8 the same flood
fill does include (5,3), confirming the inflated recorded distance. -/
theorem get_reachable_tiles_misses_reachable_tile :
    valid_walk c5Grid c5Path = true ∧
    c5Path.head? = some (0, 0) ∧
    c5Path.getLast? = some (5, 3) ∧
    path_cost c5Path = (4, 2) ∧
    costLe (4, 2) 7 ∧
    (5, 3) ∉ get_reachable_tiles c5Grid 0 0 7 ∧
    (5, 3) ∈ get_reachable_tiles c5Grid 0 0 8 := by
  refine ⟨by decide, rfl, rfl, by decide, by decide, by decide, by decide⟩
/-! ## Enemy AI movement truncation (src/combat/enemy_ai.py, lines 138-183)

`calculate_movement_target` walks the A* path accumulating per-step cost
(1.0 orthogonal, sqrt(2) diagonal) and stops at the last index whose
cumulative cost fits the movement budget.  When the tile at that index is
occupied by a unit other than the target, the code enters a fallback branch
that reads the variable `move_distance` — which is never defined anywhere in
the function — so that branch raises `NameError` at run time; the outcome
`nameError` models that exception. -/

/-- Outcome of the movement-target truncation: no move, a destination tile,
or the `NameError` crash of the occupied-destination fallback branch. -/
inductive MoveCalc where
  | noMove
  | moveTo (p : ℤ × ℤ)
  | nameError
deriving DecidableEq, Repr

/-- The budget walk of `calculate_movement_target` (enemy_ai.py lines
138-161): starting from `accumulated_cost = 0` and `destination_index = 0`,
advance an index along the path while the accumulated cost of the next step
stays within `max_tiles`, and stop at the first unaffordable step. -/
def walk_budget (max_tiles : ℕ) : List (ℤ × ℤ) → ℕ × ℕ → ℕ → ℕ
  | p :: q :: rest, acc, idx =>
      let nd := addCost acc (move_cost p q)
      if costLe nd max_tiles then walk_budget max_tiles (q :: rest) nd (idx + 1)
      else idx
  | _, _, idx => idx

/-- The path-truncation tail of `calculate_movement_target` (enemy_ai.py
lines 127-183), taking the already-computed full path: return no move for a
path of length at most 1 or a zero destination index; otherwise take the tile
at the destination index and, when it is occupied by a unit other than the
target, fall into the `move_distance` branch, i.e. raise `NameError`. -/
def calculate_movement_target_trunc (g : OccGrid) (target : ℕ)
    (path : List (ℤ × ℤ)) (max_tiles : ℕ) : MoveCalc :=
  if path.length ≤ 1 then MoveCalc.noMove
  else
    let destination_index := walk_budget max_tiles path (0, 0) 0
    if destination_index < 1 then MoveCalc.noMove
    else
      match path.get? destination_index with
      | none => MoveCalc.noMove
      | some destination =>
          if g.is_valid destination.1 destination.2 ∧
              (g.occupant destination).isSome ∧ g.occupant destination ≠ some target then
            MoveCalc.nameError
          else MoveCalc.moveTo destination

/-- The grid for the truncation failing input: unit 1 stands on (2,0); the
AI unit (id 2) is to move toward target id 0. -/
def c6Grid : OccGrid :=
  { size := 8
    occupant := fun p => if p = (2, 0) then some 1 else none
    pos := fun u => if u = 1 then some (2, 0) else none }

/-- C6 (failing input): the truncation walk itself behaves as specified —
on the diagonal path [(0,0),(1,1),(2,2)] with budget 2 it stops at index 1
(`sqrt 2 ≤ 2 < 2*sqrt 2`) and moves there, and a destination occupied by the
target itself is returned — but as soon as the stop tile is occupied by a
unit other than the target (unit 1 on (2,0), path [(0,0),(1,0),(2,0)],
budget 2) the code reads the undefined variable `move_distance` and raises
`NameError` instead of backing off one index. -/
theorem calculate_movement_target_name_error :
    calculate_movement_target_trunc c6Grid 0 [(0, 0), (1, 1), (2, 2)] 2
      = MoveCalc.moveTo (1, 1) ∧
    calculate_movement_target_trunc c6Grid 1 [(0, 0), (1, 0), (2, 0)] 2
      = MoveCalc.moveTo (2, 0) ∧
    calculate_movement_target_trunc c6Grid 0 [(0, 0), (1, 0), (2, 0)] 2
      = MoveCalc.nameError := by
  refine ⟨by decide, by decide, by decide⟩
